import Mathlib

/-!
Verification of the timeline-materialization core of the Twitter-redis
repository (`twitter_api.py`).  The Redis-backed API (`TwitterRedisAPI`)
is shallowly embedded: the relevant Redis structures (hashes, sets,
sorted sets, the atomic counter) become fields of an explicit state
record, and each Python method becomes a Lean function on that state.
The MySQL range-probe sampler (`TwitterMySQLAPI.get_random_follower_id`)
is embedded separately over a list of table rows.

Modelling conventions:
  * user ids and tweet ids are `Nat` (the spec fixes them as non-negative
    integers / u64);
  * Redis set members are `String`s, exactly as in the store; the decimal
    rendering `str(n)` of Python is modelled by `natStr`, and Python's
    `int(s)` (restricted to the optionally-whitespace-padded unsigned
    decimal numerals that occur here) by `pyToNat?`;
  * sorted-set members are tweet ids (`Nat`); ordering of equal scores
    follows Redis, i.e. lexicographic comparison of the members' decimal
    string representations;
  * the wall clock (`datetime.now`) is an external input: `post_tweet`
    takes the millisecond timestamp `ts` as a parameter and stores
    `natStr ts` as the human-readable `tweet_ts` field;
  * pipelined execution is modelled by sequential application: within one
    pipeline Redis applies the queued commands in order, so chunk
    boundaries do not change the final state or the returned values.
-/

/-- Whitespace test for `str.strip()` (the whitespace characters that can
occur around the numeric fields handled here). -/
def isWSB (c : Char) : Bool :=
  c = ' ' || c = '\t' || c = '\n' || c = '\r'

/-- Digit test on code points: `'0' ≤ c ≤ '9'`. -/
def isDigitB (c : Char) : Bool :=
  48 ≤ c.toNat && c.toNat ≤ 57

/-- Models `str.strip()`: drop whitespace from both ends of the character
list of a string. -/
def trimChars (l : List Char) : List Char :=
  ((l.dropWhile isWSB).reverse.dropWhile isWSB).reverse

/-- One step of decimal-numeral evaluation (Horner step). -/
def pstep (a : Nat) (c : Char) : Nat := 10 * a + (c.toNat - 48)

/-- Models Python `int(s)` on an unsigned decimal numeral given as a
character list: every character must be a digit and the list non-empty,
otherwise the parse fails (`int` raises `ValueError`). -/
def parseNatChars (l : List Char) : Option Nat :=
  if l = [] then none
  else if l.all isDigitB then some (l.foldl pstep 0) else none

/-- Models Python `int(s)` for a string: `int` tolerates surrounding
whitespace, then requires an unsigned decimal numeral. -/
def pyToNat? (s : String) : Option Nat :=
  parseNatChars (trimChars s.data)

/-- The decimal digit character for `d < 10`. -/
def digitChar10 (d : Nat) : Char := Char.ofNat (48 + d)

/-- Fuel-driven decimal rendering, most significant digit first (the fuel
makes the recursion structural; `rd` supplies enough fuel). -/
def rdCore : Nat → Nat → List Char → List Char
  | 0, _, acc => acc
  | fuel + 1, n, acc =>
    if n < 10 then digitChar10 n :: acc
    else rdCore fuel (n / 10) (digitChar10 (n % 10) :: acc)

/-- Decimal digit characters of `n`, most significant first. -/
def rd (n : Nat) : List Char := rdCore (n + 1) n []

/-- Models Python `str(n)` for a non-negative integer. -/
def natStr (n : Nat) : String := String.mk (rd n)

/-- Models `line.split(",", 1)`: the characters before the first comma,
and (when a comma exists) the characters after it. -/
def splitFirstComma : List Char → List Char × Option (List Char)
  | [] => ([], none)
  | c :: rest =>
    if c = ',' then ([], some rest)
    else
      let p := splitFirstComma rest
      (c :: p.1, p.2)

/-- Strict lexicographic comparison of character lists by code point,
matching the byte-wise comparison Redis applies to equal-score members. -/
def lexLtChars : List Char → List Char → Bool
  | [], [] => false
  | [], _ :: _ => true
  | _ :: _, [] => false
  | a :: as, b :: bs =>
    if a = b then lexLtChars as bs else decide (a.toNat < b.toNat)

/-! ### Sorted sets (Redis ZSET) -/

/-- A sorted set: an association list of `(member, score)` pairs, member
being a tweet id and score a millisecond timestamp. -/
abbrev ZSet := List (Nat × Nat)

/-- Redis ordering on sorted-set entries: by score, ties broken by
lexicographic comparison of the members' decimal representations. -/
def zle (a b : Nat × Nat) : Prop :=
  a.2 < b.2 ∨ (a.2 = b.2 ∧ (lexLtChars (rd a.1) (rd b.1) = true ∨ rd a.1 = rd b.1))

instance : DecidableRel zle := fun a b => by
  unfold zle; infer_instance

/-- `ZADD key {member: score}`: replace any entry for the member and add
the member with the new score. -/
def zadd (z : ZSet) (m sc : Nat) : ZSet :=
  z.filter (fun e => e.1 != m) ++ [(m, sc)]

/-- The entries of a sorted set in ascending Redis order. -/
def zsorted (z : ZSet) : ZSet := z.insertionSort zle

/-- The entries of a sorted set in descending Redis order (the order
`ZREVRANGE` reports). -/
def zrevEntries (z : ZSet) : ZSet := (zsorted z).reverse

/-- `ZREMRANGEBYRANK key 0 (-k-1)`: remove everything below the `k`
highest-ranked entries.  When the set has at most `k` entries the
converted stop index is negative and nothing is removed. -/
def ztrim (k : Nat) (z : ZSet) : ZSet :=
  (zsorted z).drop (z.length - k)

/-- Apply the timeline cap when one is configured (`timeline_max_size`). -/
def trimOpt (K : Option Nat) (z : ZSet) : ZSet :=
  match K with
  | none => z
  | some k => ztrim k z

/-! ### The store state and the API operations -/

/-- The stored hash at key `tweet:{tweet_id}` (fields set by
`post_tweet`). -/
structure TweetHash where
  user_id : Nat
  tweet_ts : String
  tweet_text : String
deriving DecidableEq

/-- A tweet as returned by the API (the `Tweet` dataclass). -/
structure Tweet where
  tweet_id : Nat
  user_id : Nat
  tweet_ts : String
  tweet_text : String
deriving DecidableEq

/-- The Redis keyspace used by `TwitterRedisAPI`: tweet hashes, follower /
following sets, per-user timelines, the global follower set and the
`next_tweet_id` counter.  Missing keys are the empty value of the
respective structure. -/
structure RedisState where
  tweets : Nat → Option TweetHash
  followers : Nat → List String
  following : Nat → List String
  timelines : Nat → ZSet
  allFollowers : List String
  nextTweetId : Nat

/-- The empty store. -/
def initState : RedisState :=
  { tweets := fun _ => none
    followers := fun _ => []
    following := fun _ => []
    timelines := fun _ => []
    allFollowers := []
    nextTweetId := 0 }

/-- One fan-out step of `post_tweet`: a follower-set member is parsed with
`int(...)`; on failure the member is silently skipped (`except: continue`),
otherwise the tweet is added to that follower's timeline, which is then
trimmed when a cap is configured. -/
def fanStep (K : Option Nat) (tid ts : Nat) (acc : RedisState) (mem : String) :
    RedisState :=
  match pyToNat? mem with
  | none => acc
  | some fid =>
    { acc with
      timelines := fun k =>
        if k = fid then trimOpt K (zadd (acc.timelines fid) tid ts)
        else acc.timelines k }

/-- `TwitterRedisAPI.post_tweet`: allocate the id with `INCR next_tweet_id`,
store the tweet hash, add the tweet to the author's own timeline (trimming
when capped), then fan out over the author's follower set.  `ts` is the
millisecond timestamp taken by `_now_ts`. -/
def post_tweet (K : Option Nat) (s : RedisState) (user_id : Nat)
    (text : String) (ts : Nat) : Nat × RedisState :=
  let tid := s.nextTweetId + 1
  let s1 : RedisState :=
    { s with
      nextTweetId := tid
      tweets := fun k =>
        if k = tid then some ⟨user_id, natStr ts, text⟩ else s.tweets k
      timelines := fun k =>
        if k = user_id then trimOpt K (zadd (s.timelines user_id) tid ts)
        else s.timelines k }
  (tid, (s.followers user_id).foldl (fanStep K tid ts) s1)

/-- `TwitterRedisAPI.get_home_timeline`: read the ten highest-scored
timeline entries (`ZREVRANGE 0 9`), resolve each member to its tweet hash
and silently skip members whose hash is missing. -/
def get_home_timeline (s : RedisState) (user_id : Nat) : List Tweet :=
  let ids := ((zrevEntries (s.timelines user_id)).take 10).map Prod.fst
  ids.filterMap fun tid =>
    (s.tweets tid).map fun h => ⟨tid, h.user_id, h.tweet_ts, h.tweet_text⟩

/-- `SRANDMEMBER key`: `none` on an empty or missing set, otherwise some
member; which member is chosen is the store's randomness, supplied here as
the oracle index `k`. -/
def srandmember (l : List String) (k : Nat) : Option String :=
  if h : l.length = 0 then none
  else some (l.get ⟨k % l.length, Nat.mod_lt _ (Nat.pos_of_ne_zero h)⟩)

/-- `TwitterRedisAPI.get_random_follower_id`: sample the `all_followers`
set; `int(v)` on the sampled member raises (modelled as `.error`) if the
member is not a numeral. -/
def get_random_follower_id (s : RedisState) (k : Nat) :
    Except String (Option Nat) :=
  match srandmember s.allFollowers k with
  | none => .ok none
  | some v =>
    match pyToNat? v with
    | some n => .ok (some n)
    | none => .error "invalid literal for int()"

/-! ### The bulk loader -/

/-- Parse one CSV line the way the loader's loop body does: `strip` the
line, skip it when blank (`.ok none`), split at the first comma (a
missing comma makes the two-variable unpacking raise), and parse both
fields with `int(...)`. -/
def parseEdge (line : String) : Except String (Option (Nat × Nat)) :=
  let t := trimChars line.data
  if t = [] then .ok none
  else
    match splitFirstComma t with
    | (_, none) => .error "not enough values to unpack"
    | (a, some b) =>
      match parseNatChars (trimChars a), parseNatChars (trimChars b) with
      | some x, some y => .ok (some (x, y))
      | _, _ => .error "invalid literal for int()"

/-- `SADD key v` with its reply: the possibly-extended set and the number
of newly added members (`1` when `v` was absent, else `0`). -/
def saddFn (v : String) (l : List String) : List String × Nat :=
  if v ∈ l then (l, 0) else (v :: l, 1)

/-- Apply the three `SADD`s queued for one parsed edge
(`followers:{followee}`, `following:{follower}`, `all_followers`) and
report the reply of the first one, which is what the loader sums. -/
def applyEdge (s : RedisState) (e : Nat × Nat) : RedisState × Nat :=
  let p := saddFn (natStr e.1) (s.followers e.2)
  let q := saddFn (natStr e.2) (s.following e.1)
  let a := saddFn (natStr e.1) s.allFollowers
  ({ s with
      followers := fun k => if k = e.2 then p.1 else s.followers k
      following := fun k => if k = e.1 then q.1 else s.following k
      allFollowers := a.1 }, p.2)

/-- The loader's loop over the data lines, accumulating the
newly-inserted-edge count.  A parse failure aborts the whole load with
the uncaught exception. -/
def loadGo (s : RedisState) (cnt : Nat) :
    List String → Except String (RedisState × Nat)
  | [] => .ok (s, cnt)
  | line :: rest =>
    match parseEdge line with
    | .error e => .error e
    | .ok none => loadGo s cnt rest
    | .ok (some e) =>
      let r := applyEdge s e
      loadGo r.1 (cnt + r.2) rest

/-- `TwitterRedisAPI.load_follows_csv` on the file's lines: optionally
discard the header line, then run the loading loop.  (Chunked pipeline
flushing only batches the same sequential `SADD`s, so it is invisible in
the final state and count.) -/
def load_follows_csv (s : RedisState) (lines : List String)
    (hasHeader : Bool) : Except String (RedisState × Nat) :=
  loadGo s 0 (if hasHeader then lines.drop 1 else lines)

/-- An edge `(f, g)` is stored when `str(f)` is a member of
`followers:{g}`. -/
def hasEdge (s : RedisState) (e : Nat × Nat) : Prop :=
  natStr e.1 ∈ s.followers e.2

instance (s : RedisState) (e : Nat × Nat) : Decidable (hasEdge s e) := by
  unfold hasEdge; infer_instance

/-! ### The MySQL range-probe sampler -/

/-- SQL `MIN` over a list of values (`none` on an empty table). -/
def sqlMin : List Nat → Option Nat
  | [] => none
  | a :: t => some (t.foldl Nat.min a)

/-- SQL `MAX` over a list of values (`none` on an empty table). -/
def sqlMax : List Nat → Option Nat
  | [] => none
  | a :: t => some (t.foldl Nat.max a)

/-- `TwitterMySQLAPI.get_random_follower_id` over the `FOLLOWS` rows:
read `MIN(follower_id)`, `MAX(follower_id)`; `None` when the table is
empty; otherwise, with the random draw `r` (Python draws it uniformly
from `[min, max]`), return the smallest `follower_id ≥ r`, or `None`
should that successor query return no row. -/
def mysql_get_random_follower_id (rows : List (Nat × Nat)) (r : Nat) :
    Option Nat :=
  let ids := rows.map Prod.fst
  match sqlMin ids, sqlMax ids with
  | some _, some _ => sqlMin (ids.filter fun i => r ≤ i)
  | _, _ => none

/-! ### Operation sequences -/

/-- A sequence of `post_tweet` calls, returning the list of allocated
tweet ids; each element of `ops` is `(author, text, timestamp)`. -/
def postSeq (K : Option Nat) : RedisState → List (Nat × String × Nat) → List Nat
  | _, [] => []
  | s, a :: rest =>
    let r := post_tweet K s a.1 a.2.1 a.2.2
    r.1 :: postSeq K r.2 rest

/-- The states of `postSeq`, used to reason about the whole run. -/
def postSeqState (K : Option Nat) : RedisState → List (Nat × String × Nat) → RedisState
  | s, [] => s
  | s, a :: rest => postSeqState K (post_tweet K s a.1 a.2.1 a.2.2).2 rest

/-- States reachable from the empty store by the write operations of the
API (`post_tweet` and successful `load_follows_csv` runs); the read
operations do not change the store. -/
inductive Reach (K : Option Nat) : RedisState → Prop where
  | init : Reach K initState
  | post (u : Nat) (text : String) (ts : Nat) {s : RedisState} :
      Reach K s → Reach K (post_tweet K s u text ts).2
  | load (lines : List String) (hdr : Bool) {s s' : RedisState} {n : Nat} :
      Reach K s → load_follows_csv s lines hdr = .ok (s', n) → Reach K s'

/-- Project the state out of a successful load (used to name concrete
scenario states). -/
def stateOf (r : Except String (RedisState × Nat)) : RedisState :=
  match r with
  | .ok p => p.1
  | .error _ => initState

/-! ### Predicates used in the specifications -/

/-- The entry `(tid, ts)` is in the sorted set and every other entry has a
strictly smaller score (so `(tid, ts)` is the strict Redis maximum). -/
def topEntry (tid ts : Nat) (z : ZSet) : Prop :=
  (tid, ts) ∈ z ∧ ∀ e ∈ z, e ≠ (tid, ts) → e.2 < ts

/-- Every entry whose member is not `tid` has score strictly below `ts`
(the timeline is "fresh" for a new post `(tid, ts)`). -/
def freshQ (tid ts : Nat) (z : ZSet) : Prop :=
  ∀ e ∈ z, e.1 ≠ tid → e.2 < ts

/-- A sensible timeline cap: when the cap is configured it keeps at least
one entry. -/
def KOK (K : Option Nat) : Prop := ∀ k, K = some k → 1 ≤ k

/-- The GlobalFollowerSet consistency invariant: every member of any
per-user follower set is also a member of `all_followers`. -/
def FollowInv (s : RedisState) : Prop :=
  ∀ g m, m ∈ s.followers g → m ∈ s.allFollowers

/-- `n` same-author, same-timestamp posts in a row (text of the `i`-th
post is `str(i)`); used for the concrete tie-break scenarios. -/
def postN (K : Option Nat) (s : RedisState) (u ts : Nat) : Nat → RedisState
  | 0 => s
  | n + 1 => (post_tweet K (postN K s u ts n) u (natStr (n + 1)) ts).2

/-- The spec's concrete scenario: load edges (1,2),(1,2),(3,2) with no
header into the empty store. -/
def scnLoaded : RedisState :=
  stateOf (load_follows_csv initState ["1,2", "1,2", "3,2"] false)

/-- The spec's concrete scenario after `post(2, "hello")`. -/
def scnPosted : RedisState := (post_tweet none scnLoaded 2 "hello" 100).2

/-- Tie-break scenario for the cap: follower 1 follows author 2, the cap
is one entry, and author 2 has already posted nine times at timestamp
100. -/
def capScn : RedisState :=
  postN (some 1) (stateOf (load_follows_csv initState ["1,2"] false)) 2 100 9

/-- The tenth post of the cap scenario, at the same timestamp 100. -/
def capScnPost : Nat × RedisState := post_tweet (some 1) capScn 2 "new" 100

/-- Tie-break scenario without a cap: author 1 posts nine times at
timestamp 100, then posts text "t10" at the same timestamp. -/
def tieScnPost : Nat × RedisState :=
  post_tweet none (postN none initState 1 100 9) 1 "t10" 100

/-- Two same-timestamp posts by author 1 into the empty store. -/
def twoTieState : RedisState :=
  (post_tweet none (post_tweet none initState 1 "a" 100).2 1 "b" 100).2

/-- A store whose `followers:1` set holds a member that is not a numeral
next to a parseable one (for the fan-out skip behaviour). -/
def junkState : RedisState :=
  { initState with followers := fun g => if g = 1 then ["abc", "2"] else [] }

/-- `junkState` with the unparseable member removed. -/
def junkStateF : RedisState :=
  { initState with followers := fun g => if g = 1 then ["2"] else [] }

/-! ### Properties of the decimal rendering `natStr` / parser `pyToNat?` -/

theorem rd_eq_append (n : Nat) : ∀ (fuel : Nat) (acc : List Char), n < fuel →
    rdCore fuel n acc = rd n ++ acc := by
  induction n using Nat.strong_induction_on with
  | _ n ih =>
    intro fuel acc h
    obtain ⟨f, rfl⟩ : ∃ f, fuel = f + 1 := ⟨fuel - 1, by omega⟩
    by_cases h10 : n < 10
    · simp [rdCore, rd, h10]
    · have hdiv : n / 10 < n := Nat.div_lt_self (by omega) (by omega)
      have h1 : rdCore (f + 1) n acc =
          rdCore f (n / 10) (digitChar10 (n % 10) :: acc) := by
        simp [rdCore, h10]
      have h2 : rd n = rd (n / 10) ++ [digitChar10 (n % 10)] := by
        show rdCore (n + 1) n [] = _
        have h3 : rdCore (n + 1) n [] =
            rdCore n (n / 10) [digitChar10 (n % 10)] := by
          simp [rdCore, h10]
        rw [h3, ih (n / 10) hdiv n _ (by omega)]
      rw [h1, ih (n / 10) hdiv f _ (by omega), h2, List.append_assoc]
      rfl

theorem rd_small {n : Nat} (h : n < 10) : rd n = [digitChar10 n] := by
  simp [rd, rdCore, h]

theorem rd_step {n : Nat} (h : 10 ≤ n) :
    rd n = rd (n / 10) ++ [digitChar10 (n % 10)] := by
  have h3 : rdCore (n + 1) n [] = rdCore n (n / 10) [digitChar10 (n % 10)] := by
    simp [rdCore, Nat.not_lt.mpr h]
  have hdiv : n / 10 < n := Nat.div_lt_self (by omega) (by omega)
  show rdCore (n + 1) n [] = _
  rw [h3, rd_eq_append (n / 10) n _ hdiv]

theorem digitChar10_toNat {d : Nat} (h : d < 10) :
    (digitChar10 d).toNat = 48 + d := by
  interval_cases d <;> rfl

theorem rd_digits {n : Nat} : ∀ c ∈ rd n, 48 ≤ c.toNat ∧ c.toNat ≤ 57 := by
  induction n using Nat.strong_induction_on with
  | _ n ih =>
    intro c hc
    by_cases h10 : n < 10
    · rw [rd_small h10, List.mem_singleton] at hc
      subst hc
      rw [digitChar10_toNat h10]
      omega
    · rw [rd_step (by omega)] at hc
      rcases List.mem_append.mp hc with hc | hc
      · exact ih (n / 10) (Nat.div_lt_self (by omega) (by omega)) c hc
      · rw [List.mem_singleton] at hc
        subst hc
        rw [digitChar10_toNat (Nat.mod_lt _ (by omega))]
        omega

theorem rd_ne_nil {n : Nat} : rd n ≠ [] := by
  by_cases h10 : n < 10
  · simp [rd_small h10]
  · rw [rd_step (by omega)]
    simp

theorem foldl_rd {n : Nat} : ∀ acc : Nat,
    (rd n).foldl pstep acc = acc * 10 ^ (rd n).length + n := by
  induction n using Nat.strong_induction_on with
  | _ n ih =>
    intro acc
    by_cases h10 : n < 10
    · rw [rd_small h10]
      simp [pstep, digitChar10_toNat h10]
      omega
    · have hdiv : n / 10 < n := Nat.div_lt_self (by omega) (by omega)
      rw [rd_step (by omega), List.foldl_append, ih (n / 10) hdiv acc]
      have hmod : 10 * (n / 10) + n % 10 = n := Nat.div_add_mod n 10
      simp only [List.foldl_cons, List.foldl_nil, List.length_append,
        List.length_singleton, pstep, digitChar10_toNat (Nat.mod_lt n (by omega))]
      rw [pow_succ]
      have : 48 + n % 10 - 48 = n % 10 := by omega
      rw [this]
      ring_nf
      omega

theorem parse_rd {n : Nat} : parseNatChars (rd n) = some n := by
  have hdig : (rd n).all isDigitB = true := by
    rw [List.all_eq_true]
    intro c hc
    have := rd_digits c hc
    simp [isDigitB]
    omega
  rw [parseNatChars, if_neg rd_ne_nil, if_pos hdig, foldl_rd]
  simp

theorem digit_not_ws {c : Char} (h48 : 48 ≤ c.toNat) : isWSB c = false := by
  rw [isWSB]
  have h1 : ¬ c = ' ' := by rintro rfl; exact absurd h48 (by decide)
  have h2 : ¬ c = '\t' := by rintro rfl; exact absurd h48 (by decide)
  have h3 : ¬ c = '\n' := by rintro rfl; exact absurd h48 (by decide)
  have h4 : ¬ c = '\r' := by rintro rfl; exact absurd h48 (by decide)
  simp [h1, h2, h3, h4]

theorem dropWhile_no_ws {l : List Char} (h : ∀ c ∈ l, isWSB c = false) :
    l.dropWhile isWSB = l := by
  cases l with
  | nil => rfl
  | cons a t => simp [List.dropWhile_cons, h a (List.mem_cons_self a t)]

theorem trimChars_no_ws {l : List Char} (h : ∀ c ∈ l, isWSB c = false) :
    trimChars l = l := by
  rw [trimChars, dropWhile_no_ws h, dropWhile_no_ws, List.reverse_reverse]
  intro c hc
  exact h c (List.mem_reverse.mp hc)

theorem trimChars_rd {n : Nat} : trimChars (rd n) = rd n :=
  trimChars_no_ws fun c hc => digit_not_ws (rd_digits c hc).1

theorem natStr_data {n : Nat} : (natStr n).data = rd n := rfl

theorem pyToNat?_natStr {n : Nat} : pyToNat? (natStr n) = some n := by
  rw [pyToNat?, natStr_data, trimChars_rd, parse_rd]

theorem natStr_inj {m n : Nat} (h : natStr m = natStr n) : m = n := by
  have h2 : rd m = rd n := congrArg String.data h
  have h3 : some m = some n := by rw [← parse_rd (n := m), ← parse_rd (n := n), h2]
  exact Option.some_injective _ h3

example : parseEdge "1,2" = .ok (some (1, 2)) := rfl
example : parseEdge "  " = .ok none := rfl
example : parseEdge "x,2" = .error "invalid literal for int()" := rfl
example : parseEdge "12" = .error "not enough values to unpack" := rfl
example : natStr 10 = "10" := rfl
example : pyToNat? " 17 " = some 17 := rfl
example : lexLtChars (rd 10) (rd 9) = true := rfl
example :
    (load_follows_csv initState ["1,2", "1,2", "3,2"] false).map Prod.snd =
      .ok 2 := rfl

/-! ### The Redis sorted-set order -/

theorem char_eq_of_toNat_eq {a b : Char} (h : a.toNat = b.toNat) : a = b := by
  apply Char.eq_of_val_eq
  apply UInt32.ext
  simpa [Char.toNat] using h

theorem lexLtChars_trichotomy :
    ∀ a b : List Char, lexLtChars a b = true ∨ a = b ∨ lexLtChars b a = true
  | [], [] => Or.inr (Or.inl rfl)
  | [], _ :: _ => Or.inl rfl
  | _ :: _, [] => Or.inr (Or.inr rfl)
  | a :: as, b :: bs => by
    by_cases hab : a = b
    · subst hab
      rcases lexLtChars_trichotomy as bs with h | h | h
      · left; simp [lexLtChars, h]
      · right; left; rw [h]
      · right; right; simp [lexLtChars, h]
    · rcases Nat.lt_trichotomy a.toNat b.toNat with h | h | h
      · left; simp [lexLtChars, hab, h]
      · exact absurd (char_eq_of_toNat_eq h) hab
      · right; right
        have hba : ¬ b = a := fun he => hab he.symm
        simp [lexLtChars, hba, h]

theorem lexLtChars_trans :
    ∀ (a b c : List Char), lexLtChars a b = true → lexLtChars b c = true →
      lexLtChars a c = true
  | [], [], _, h1, _ => by simp [lexLtChars] at h1
  | [], _ :: _, [], _, h2 => by simp [lexLtChars] at h2
  | [], _ :: _, _ :: _, _, _ => rfl
  | _ :: _, [], _, h1, _ => by simp [lexLtChars] at h1
  | _ :: _, _ :: _, [], _, h2 => by simp [lexLtChars] at h2
  | a :: as, b :: bs, c :: cs, h1, h2 => by
    by_cases hab : a = b <;> by_cases hbc : b = c
    · subst hab; subst hbc
      simp only [lexLtChars, if_pos rfl] at h1 h2 ⊢
      exact lexLtChars_trans as bs cs h1 h2
    · subst hab
      simp only [lexLtChars, if_pos rfl] at h1
      simp only [lexLtChars, if_neg hbc] at h2 ⊢
      exact h2
    · subst hbc
      simp only [lexLtChars, if_neg hab] at h1 ⊢
      exact h1
    · simp only [lexLtChars, if_neg hab] at h1
      simp only [lexLtChars, if_neg hbc] at h2
      have h3 : a.toNat < c.toNat :=
        Nat.lt_trans (of_decide_eq_true h1) (of_decide_eq_true h2)
      have hac : ¬ a = c := by
        rintro rfl
        exact Nat.lt_irrefl _ h3
      simp [lexLtChars, hac, h3]

instance : IsTotal (Nat × Nat) zle :=
  ⟨fun a b => by
    rcases Nat.lt_trichotomy a.2 b.2 with h | h | h
    · exact Or.inl (Or.inl h)
    · rcases lexLtChars_trichotomy (rd a.1) (rd b.1) with hs | hs | hs
      · exact Or.inl (Or.inr ⟨h, Or.inl hs⟩)
      · exact Or.inl (Or.inr ⟨h, Or.inr hs⟩)
      · exact Or.inr (Or.inr ⟨h.symm, Or.inl hs⟩)
    · exact Or.inr (Or.inl h)⟩

instance : IsTrans (Nat × Nat) zle :=
  ⟨fun a b c hab hbc => by
    rcases hab with h1 | ⟨h1, hs1⟩
    · rcases hbc with h2 | ⟨h2, _⟩
      · exact Or.inl (Nat.lt_trans h1 h2)
      · exact Or.inl (h2 ▸ h1)
    · rcases hbc with h2 | ⟨h2, hs2⟩
      · exact Or.inl (h1 ▸ h2)
      · refine Or.inr ⟨h1.trans h2, ?_⟩
        rcases hs1 with hs1 | hs1
        · rcases hs2 with hs2 | hs2
          · exact Or.inl (lexLtChars_trans _ _ _ hs1 hs2)
          · exact Or.inl (hs2 ▸ hs1)
        · rcases hs2 with hs2 | hs2
          · exact Or.inl (hs1 ▸ hs2)
          · exact Or.inr (hs1.trans hs2)⟩

/-! ### Sorted-set lemmas -/

theorem mem_zadd {z : ZSet} {m sc : Nat} {e : Nat × Nat} :
    e ∈ zadd z m sc ↔ (e ∈ z ∧ e.1 ≠ m) ∨ e = (m, sc) := by
  simp [zadd, List.mem_filter, bne_iff_ne]

theorem zsorted_sorted (z : ZSet) : List.Sorted zle (zsorted z) :=
  List.sorted_insertionSort zle z

theorem mem_zsorted {z : ZSet} {e : Nat × Nat} : e ∈ zsorted z ↔ e ∈ z :=
  List.mem_insertionSort zle

theorem length_zsorted (z : ZSet) : (zsorted z).length = z.length :=
  List.length_insertionSort zle z

theorem mem_zrevEntries {z : ZSet} {e : Nat × Nat} :
    e ∈ zrevEntries z ↔ e ∈ z := by
  rw [zrevEntries, List.mem_reverse, mem_zsorted]

theorem zrev_pairwise (z : ZSet) :
    (zrevEntries z).Pairwise (fun a b => zle b a) := by
  rw [zrevEntries]
  exact List.pairwise_reverse.mpr (zsorted_sorted z)

theorem head_of_top {l : List (Nat × Nat)} {tid ts : Nat}
    (hp : l.Pairwise (fun a b => zle b a))
    (hm : (tid, ts) ∈ l)
    (hmax : ∀ e ∈ l, e ≠ (tid, ts) → e.2 < ts) :
    l.head? = some (tid, ts) := by
  cases l with
  | nil => simp at hm
  | cons h t =>
    rcases List.mem_cons.mp hm with he | hmem
    · rw [he]; rfl
    · by_cases hh : h = (tid, ts)
      · rw [hh]; rfl
      · have h1 : zle (tid, ts) h := (List.pairwise_cons.mp hp).1 _ hmem
        have h2 : h.2 < ts := hmax h (List.mem_cons_self _ _) hh
        rcases h1 with h1 | ⟨h1, _⟩
        · exact absurd h1 (by simp; omega)
        · simp at h1
          omega

theorem zrev_head_of_top {tid ts : Nat} {z : ZSet} (h : topEntry tid ts z) :
    (zrevEntries z).head? = some (tid, ts) :=
  head_of_top (zrev_pairwise z) (mem_zrevEntries.mpr h.1)
    fun e he => h.2 e (mem_zrevEntries.mp he)

theorem mem_drop_of_getLast? {α : Type} :
    ∀ (l : List α) (n : Nat) (a : α), l.getLast? = some a → n < l.length →
      a ∈ l.drop n
  | [], _, _, h, _ => by simp at h
  | x :: t, 0, a, h, _ => by
    rcases List.mem_getLast?_eq_getLast (by rw [h]; rfl) with ⟨hne, he⟩
    rw [List.drop_zero, he]
    exact List.getLast_mem hne
  | x :: t, n + 1, a, h, hlen => by
    cases t with
    | nil => simp at hlen
    | cons y u =>
      rw [List.getLast?_cons_cons] at h
      rw [List.drop_succ_cons]
      exact mem_drop_of_getLast? (y :: u) n a h (by simpa using Nat.lt_of_succ_lt_succ hlen)

theorem zsorted_getLast_of_top {tid ts : Nat} {z : ZSet}
    (h : topEntry tid ts z) : (zsorted z).getLast? = some (tid, ts) := by
  rw [← List.head?_reverse]
  exact zrev_head_of_top h

theorem mem_ztrim {z : ZSet} {k : Nat} {e : Nat × Nat} (h : e ∈ ztrim k z) :
    e ∈ z :=
  mem_zsorted.mp (List.drop_subset _ _ h)

theorem ztrim_length_le (k : Nat) (z : ZSet) : (ztrim k z).length ≤ k := by
  rw [ztrim, List.length_drop, length_zsorted]
  omega

theorem topEntry_ztrim {tid ts k : Nat} {z : ZSet} (hk : 1 ≤ k)
    (h : topEntry tid ts z) : topEntry tid ts (ztrim k z) := by
  constructor
  · have hlen : 1 ≤ z.length := List.length_pos.mpr (List.ne_nil_of_mem h.1)
    apply mem_drop_of_getLast? _ _ _ (zsorted_getLast_of_top h)
    rw [length_zsorted]
    omega
  · exact fun e he => h.2 e (mem_ztrim he)

theorem topEntry_trimOpt {tid ts : Nat} {K : Option Nat} {z : ZSet}
    (hK : KOK K) (h : topEntry tid ts z) : topEntry tid ts (trimOpt K z) := by
  cases K with
  | none => exact h
  | some k => exact topEntry_ztrim (hK k rfl) h

theorem topEntry_zadd {tid ts : Nat} {z : ZSet} (h : freshQ tid ts z) :
    topEntry tid ts (zadd z tid ts) := by
  constructor
  · exact mem_zadd.mpr (Or.inr rfl)
  · intro e he hne
    rcases mem_zadd.mp he with ⟨hez, h1⟩ | h1
    · exact h e hez h1
    · exact absurd h1 hne

theorem freshQ_of_top {tid ts : Nat} {z : ZSet} (h : topEntry tid ts z) :
    freshQ tid ts z := by
  intro e he h1
  exact h.2 e he (by rintro rfl; exact h1 rfl)

theorem freshQ_subset {tid ts : Nat} {z z' : ZSet}
    (hsub : ∀ e, e ∈ z' → e ∈ z) (h : freshQ tid ts z) : freshQ tid ts z' :=
  fun e he => h e (hsub e he)

theorem freshQ_zadd {tid ts : Nat} {z : ZSet} (h : freshQ tid ts z) :
    freshQ tid ts (zadd z tid ts) :=
  freshQ_of_top (topEntry_zadd h)

theorem freshQ_trimOpt {tid ts : Nat} {K : Option Nat} {z : ZSet}
    (h : freshQ tid ts z) : freshQ tid ts (trimOpt K z) := by
  cases K with
  | none => exact h
  | some k => exact freshQ_subset (fun e => mem_ztrim) h

/-! ### Fan-out lemmas -/

theorem fanStep_tweets (K : Option Nat) (tid ts : Nat) (acc : RedisState)
    (mem : String) : (fanStep K tid ts acc mem).tweets = acc.tweets := by
  rw [fanStep]
  cases pyToNat? mem <;> rfl

theorem fanStep_followers (K : Option Nat) (tid ts : Nat) (acc : RedisState)
    (mem : String) : (fanStep K tid ts acc mem).followers = acc.followers := by
  rw [fanStep]
  cases pyToNat? mem <;> rfl

theorem fanStep_following (K : Option Nat) (tid ts : Nat) (acc : RedisState)
    (mem : String) : (fanStep K tid ts acc mem).following = acc.following := by
  rw [fanStep]
  cases pyToNat? mem <;> rfl

theorem fanStep_allFollowers (K : Option Nat) (tid ts : Nat) (acc : RedisState)
    (mem : String) : (fanStep K tid ts acc mem).allFollowers = acc.allFollowers := by
  rw [fanStep]
  cases pyToNat? mem <;> rfl

theorem fanStep_nextTweetId (K : Option Nat) (tid ts : Nat) (acc : RedisState)
    (mem : String) : (fanStep K tid ts acc mem).nextTweetId = acc.nextTweetId := by
  rw [fanStep]
  cases pyToNat? mem <;> rfl

theorem foldl_fanStep_tweets (K : Option Nat) (tid ts : Nat) :
    ∀ (l : List String) (acc : RedisState),
      (l.foldl (fanStep K tid ts) acc).tweets = acc.tweets
  | [], _ => rfl
  | m :: t, acc => by
    rw [List.foldl_cons, foldl_fanStep_tweets K tid ts t, fanStep_tweets]

theorem foldl_fanStep_followers (K : Option Nat) (tid ts : Nat) :
    ∀ (l : List String) (acc : RedisState),
      (l.foldl (fanStep K tid ts) acc).followers = acc.followers
  | [], _ => rfl
  | m :: t, acc => by
    rw [List.foldl_cons, foldl_fanStep_followers K tid ts t, fanStep_followers]

theorem foldl_fanStep_following (K : Option Nat) (tid ts : Nat) :
    ∀ (l : List String) (acc : RedisState),
      (l.foldl (fanStep K tid ts) acc).following = acc.following
  | [], _ => rfl
  | m :: t, acc => by
    rw [List.foldl_cons, foldl_fanStep_following K tid ts t, fanStep_following]

theorem foldl_fanStep_allFollowers (K : Option Nat) (tid ts : Nat) :
    ∀ (l : List String) (acc : RedisState),
      (l.foldl (fanStep K tid ts) acc).allFollowers = acc.allFollowers
  | [], _ => rfl
  | m :: t, acc => by
    rw [List.foldl_cons, foldl_fanStep_allFollowers K tid ts t, fanStep_allFollowers]

theorem foldl_fanStep_nextTweetId (K : Option Nat) (tid ts : Nat) :
    ∀ (l : List String) (acc : RedisState),
      (l.foldl (fanStep K tid ts) acc).nextTweetId = acc.nextTweetId
  | [], _ => rfl
  | m :: t, acc => by
    rw [List.foldl_cons, foldl_fanStep_nextTweetId K tid ts t, fanStep_nextTweetId]

theorem fanStep_timelines_cases (K : Option Nat) (tid ts : Nat)
    (acc : RedisState) (mem : String) (g : Nat) :
    (fanStep K tid ts acc mem).timelines g = acc.timelines g ∨
      (pyToNat? mem = some g ∧
        (fanStep K tid ts acc mem).timelines g =
          trimOpt K (zadd (acc.timelines g) tid ts)) := by
  rw [fanStep]
  cases hp : pyToNat? mem with
  | none => exact Or.inl rfl
  | some fid =>
    by_cases hg : g = fid
    · subst hg
      exact Or.inr ⟨rfl, by simp⟩
    · left
      simp [hg]

theorem fanStep_freshQ {K : Option Nat} {tid ts : Nat} {acc : RedisState}
    {mem : String} {g : Nat} (h : freshQ tid ts (acc.timelines g)) :
    freshQ tid ts ((fanStep K tid ts acc mem).timelines g) := by
  rcases fanStep_timelines_cases K tid ts acc mem g with he | ⟨_, he⟩
  · rw [he]; exact h
  · rw [he]
    exact freshQ_trimOpt (freshQ_zadd h)

theorem fanStep_topEntry {K : Option Nat} {tid ts : Nat} {acc : RedisState}
    {mem : String} {g : Nat} (hK : KOK K)
    (h : topEntry tid ts (acc.timelines g)) :
    topEntry tid ts ((fanStep K tid ts acc mem).timelines g) := by
  rcases fanStep_timelines_cases K tid ts acc mem g with he | ⟨_, he⟩
  · rw [he]; exact h
  · rw [he]
    exact topEntry_trimOpt hK (topEntry_zadd (freshQ_of_top h))

theorem foldl_freshQ {K : Option Nat} {tid ts : Nat} {g : Nat} :
    ∀ {l : List String} {acc : RedisState},
      freshQ tid ts (acc.timelines g) →
      freshQ tid ts ((l.foldl (fanStep K tid ts) acc).timelines g)
  | [], _, h => h
  | m :: t, acc, h => by
    rw [List.foldl_cons]
    exact foldl_freshQ (fanStep_freshQ h)

theorem foldl_topEntry {K : Option Nat} {tid ts : Nat} {g : Nat} (hK : KOK K) :
    ∀ {l : List String} {acc : RedisState},
      topEntry tid ts (acc.timelines g) →
      topEntry tid ts ((l.foldl (fanStep K tid ts) acc).timelines g)
  | [], _, h => h
  | m :: t, acc, h => by
    rw [List.foldl_cons]
    exact foldl_topEntry hK (fanStep_topEntry hK h)

theorem foldl_delivers {K : Option Nat} {tid ts : Nat} {g : Nat}
    {mem : String} (hK : KOK K) (hp : pyToNat? mem = some g) :
    ∀ {l : List String} {acc : RedisState},
      freshQ tid ts (acc.timelines g) → mem ∈ l →
      topEntry tid ts ((l.foldl (fanStep K tid ts) acc).timelines g)
  | [], _, _, hm => absurd hm (List.not_mem_nil mem)
  | m :: t, acc, hQ, hm => by
    rw [List.foldl_cons]
    by_cases hmm : pyToNat? m = some g
    · apply foldl_topEntry hK
      have he : (fanStep K tid ts acc m).timelines g =
          trimOpt K (zadd (acc.timelines g) tid ts) := by
        rw [fanStep, hmm]
        simp
      rw [he]
      exact topEntry_trimOpt hK (topEntry_zadd hQ)
    · have hmt : mem ∈ t := by
        rcases List.mem_cons.mp hm with he | he
        · exact absurd (he ▸ hp) hmm
        · exact he
      exact foldl_delivers hK hp (fanStep_freshQ hQ) hmt

/-! ### Resolving a timeline head through `get_home_timeline` -/

theorem home_head_of_top {s : RedisState} {u tid ts : Nat} {hs : TweetHash}
    (h : topEntry tid ts (s.timelines u)) (ht : s.tweets tid = some hs) :
    (get_home_timeline s u).head? =
      some ⟨tid, hs.user_id, hs.tweet_ts, hs.tweet_text⟩ := by
  obtain ⟨rest, hrest⟩ :
      ∃ rest, zrevEntries (s.timelines u) = (tid, ts) :: rest := by
    have hh := zrev_head_of_top h
    cases hz : zrevEntries (s.timelines u) with
    | nil => rw [hz] at hh; simp at hh
    | cons a t =>
      rw [hz] at hh
      simp at hh
      exact ⟨t, by rw [hh]⟩
  simp [get_home_timeline, hrest, List.take_succ_cons, List.filterMap_cons, ht]

/-! ### `post_tweet` structure lemmas -/

theorem post_tweet_def (K : Option Nat) (s : RedisState) (u : Nat)
    (text : String) (ts : Nat) :
    post_tweet K s u text ts =
      (s.nextTweetId + 1,
        (s.followers u).foldl (fanStep K (s.nextTweetId + 1) ts)
          { s with
            nextTweetId := s.nextTweetId + 1
            tweets := fun k =>
              if k = s.nextTweetId + 1 then some ⟨u, natStr ts, text⟩
              else s.tweets k
            timelines := fun k =>
              if k = u then
                trimOpt K (zadd (s.timelines u) (s.nextTweetId + 1) ts)
              else s.timelines k }) := rfl

theorem post_tweet_fst (K : Option Nat) (s : RedisState) (u : Nat)
    (text : String) (ts : Nat) :
    (post_tweet K s u text ts).1 = s.nextTweetId + 1 := rfl

theorem post_tweet_nextTweetId (K : Option Nat) (s : RedisState) (u : Nat)
    (text : String) (ts : Nat) :
    (post_tweet K s u text ts).2.nextTweetId = s.nextTweetId + 1 := by
  rw [post_tweet_def]
  rw [foldl_fanStep_nextTweetId]

theorem post_tweet_followers (K : Option Nat) (s : RedisState) (u : Nat)
    (text : String) (ts : Nat) :
    (post_tweet K s u text ts).2.followers = s.followers := by
  rw [post_tweet_def]
  rw [foldl_fanStep_followers]

theorem post_tweet_following (K : Option Nat) (s : RedisState) (u : Nat)
    (text : String) (ts : Nat) :
    (post_tweet K s u text ts).2.following = s.following := by
  rw [post_tweet_def]
  rw [foldl_fanStep_following]

theorem post_tweet_allFollowers (K : Option Nat) (s : RedisState) (u : Nat)
    (text : String) (ts : Nat) :
    (post_tweet K s u text ts).2.allFollowers = s.allFollowers := by
  rw [post_tweet_def]
  rw [foldl_fanStep_allFollowers]

theorem post_tweet_tweets_new (K : Option Nat) (s : RedisState) (u : Nat)
    (text : String) (ts : Nat) :
    (post_tweet K s u text ts).2.tweets (s.nextTweetId + 1) =
      some ⟨u, natStr ts, text⟩ := by
  rw [post_tweet_def]
  rw [foldl_fanStep_tweets]
  simp

theorem post_author_first {K : Option Nat} {s : RedisState} {u : Nat}
    {text : String} {ts : Nat} (hK : KOK K)
    (hfresh : ∀ e ∈ s.timelines u, e.2 < ts) :
    (get_home_timeline (post_tweet K s u text ts).2 u).head? =
      some ⟨s.nextTweetId + 1, u, natStr ts, text⟩ := by
  have htop : topEntry (s.nextTweetId + 1) ts
      ((post_tweet K s u text ts).2.timelines u) := by
    rw [post_tweet_def]
    apply foldl_topEntry hK
    simp only [if_pos rfl]
    exact topEntry_trimOpt hK (topEntry_zadd fun e he _ => hfresh e he)
  exact home_head_of_top htop (post_tweet_tweets_new K s u text ts)

theorem post_follower_first {K : Option Nat} {s : RedisState} {u fid : Nat}
    {mem : String} {text : String} {ts : Nat} (hK : KOK K)
    (hmem : mem ∈ s.followers u) (hp : pyToNat? mem = some fid)
    (hfresh : ∀ e ∈ s.timelines fid, e.2 < ts) :
    (get_home_timeline (post_tweet K s u text ts).2 fid).head? =
      some ⟨s.nextTweetId + 1, u, natStr ts, text⟩ := by
  have htop : topEntry (s.nextTweetId + 1) ts
      ((post_tweet K s u text ts).2.timelines fid) := by
    rw [post_tweet_def]
    apply foldl_delivers hK hp _ hmem
    by_cases hfu : fid = u
    · subst hfu
      simp only [if_pos rfl]
      exact freshQ_trimOpt (freshQ_zadd fun e he _ => hfresh e he)
    · simp only [if_neg hfu]
      exact fun e he _ => hfresh e he
  exact home_head_of_top htop (post_tweet_tweets_new K s u text ts)

/-! ### Loader lemmas -/

theorem applyEdge_count (s : RedisState) (e : Nat × Nat) :
    (applyEdge s e).2 = if hasEdge s e then 0 else 1 := by
  by_cases h : hasEdge s e
  · rw [if_pos h]
    show (saddFn (natStr e.1) (s.followers e.2)).2 = 0
    rw [saddFn, if_pos (show natStr e.1 ∈ s.followers e.2 from h)]
  · rw [if_neg h]
    show (saddFn (natStr e.1) (s.followers e.2)).2 = 1
    rw [saddFn, if_neg (show ¬ natStr e.1 ∈ s.followers e.2 from h)]

theorem applyEdge_timelines (s : RedisState) (e : Nat × Nat) :
    (applyEdge s e).1.timelines = s.timelines := rfl

theorem applyEdge_tweets (s : RedisState) (e : Nat × Nat) :
    (applyEdge s e).1.tweets = s.tweets := rfl

theorem hasEdge_def (s : RedisState) (e : Nat × Nat) :
    hasEdge s e ↔ natStr e.1 ∈ s.followers e.2 := Iff.rfl

theorem hasEdge_applyEdge (s : RedisState) (e x : Nat × Nat) :
    hasEdge (applyEdge s e).1 x ↔ hasEdge s x ∨ x = e := by
  show natStr x.1 ∈ (if x.2 = e.2 then (saddFn (natStr e.1) (s.followers e.2)).1
    else s.followers x.2) ↔ _
  by_cases hx2 : x.2 = e.2
  · rw [if_pos hx2, saddFn]
    by_cases hpre : natStr e.1 ∈ s.followers e.2
    · rw [if_pos hpre]
      constructor
      · intro hm
        exact Or.inl (by rw [hasEdge_def, hx2]; exact hm)
      · rintro (hm | rfl)
        · rw [hasEdge_def, hx2] at hm; exact hm
        · exact hpre
    · rw [if_neg hpre]
      simp only [List.mem_cons]
      constructor
      · rintro (hm | hm)
        · right
          exact Prod.ext (natStr_inj hm) hx2
        · left
          rw [hasEdge_def, hx2]
          exact hm
      · rintro (hm | rfl)
        · right
          rw [hasEdge_def, hx2] at hm
          exact hm
        · left; rfl
  · rw [if_neg hx2]
    constructor
    · exact fun hm => Or.inl hm
    · rintro (hm | rfl)
      · exact hm
      · exact absurd rfl hx2

theorem loadGo_count :
    ∀ {lines : List String} {es : List (Nat × Nat)},
      List.Forall₂ (fun line e => parseEdge line = .ok (some e)) lines es →
      ∀ (s : RedisState) (cnt : Nat),
      ∃ s', loadGo s cnt lines =
        .ok (s', cnt + (es.toFinset.filter (fun e => ¬ hasEdge s e)).card) := by
  intro lines es hf
  induction hf with
  | nil =>
    intro s cnt
    exact ⟨s, by simp [loadGo]⟩
  | @cons line e lines' es' hpe htail ih =>
    intro s cnt
    obtain ⟨s', hs'⟩ := ih (applyEdge s e).1 (cnt + (applyEdge s e).2)
    refine ⟨s', ?_⟩
    have hstep : loadGo s cnt (line :: lines') =
        loadGo (applyEdge s e).1 (cnt + (applyEdge s e).2) lines' := by
      rw [loadGo, hpe]
    rw [hstep, hs']
    have key : (applyEdge s e).2 +
        (es'.toFinset.filter (fun x => ¬ hasEdge (applyEdge s e).1 x)).card =
        ((e :: es').toFinset.filter (fun x => ¬ hasEdge s x)).card := by
      rw [applyEdge_count]
      by_cases he : hasEdge s e
      · rw [if_pos he]
        have hset : (e :: es').toFinset.filter (fun x => ¬ hasEdge s x) =
            es'.toFinset.filter (fun x => ¬ hasEdge (applyEdge s e).1 x) := by
          ext x
          simp only [List.toFinset_cons, Finset.mem_filter, Finset.mem_insert,
            hasEdge_applyEdge]
          constructor
          · rintro ⟨hx1 | hx1, hx2⟩
            · exact absurd (hx1 ▸ he) hx2
            · refine ⟨hx1, fun h => ?_⟩
              rcases h with h | rfl
              · exact hx2 h
              · exact hx2 he
          · rintro ⟨hx1, hx2⟩
            exact ⟨Or.inr hx1, fun h => hx2 (Or.inl h)⟩
        rw [hset]
        omega
      · rw [if_neg he]
        have hset : (e :: es').toFinset.filter (fun x => ¬ hasEdge s x) =
            insert e (es'.toFinset.filter
              (fun x => ¬ hasEdge (applyEdge s e).1 x)) := by
          ext x
          simp only [List.toFinset_cons, Finset.mem_filter, Finset.mem_insert,
            hasEdge_applyEdge]
          constructor
          · rintro ⟨hx1 | hx1, hx2⟩
            · exact Or.inl hx1
            · by_cases hxe : x = e
              · exact Or.inl hxe
              · refine Or.inr ⟨hx1, fun h => ?_⟩
                rcases h with h | h
                · exact hx2 h
                · exact hxe h
          · rintro (rfl | ⟨hx1, hx2⟩)
            · exact ⟨Or.inl rfl, he⟩
            · exact ⟨Or.inr hx1, fun h => hx2 (Or.inl h)⟩
        rw [hset, Finset.card_insert_of_not_mem]
        · omega
        · simp [hasEdge_applyEdge]
    rw [show cnt + (applyEdge s e).2 +
        (es'.toFinset.filter (fun x => ¬ hasEdge (applyEdge s e).1 x)).card =
        cnt + ((e :: es').toFinset.filter (fun x => ¬ hasEdge s x)).card by
      omega]

theorem saddFn_superset {v m : String} {l : List String} (h : m ∈ l) :
    m ∈ (saddFn v l).1 := by
  rw [saddFn]
  split
  · exact h
  · exact List.mem_cons_of_mem v h

theorem saddFn_mem_self {v : String} {l : List String} : v ∈ (saddFn v l).1 := by
  rw [saddFn]
  split
  · assumption
  · exact List.mem_cons_self v l

theorem applyEdge_followInv {s : RedisState} {e : Nat × Nat}
    (h : FollowInv s) : FollowInv (applyEdge s e).1 := by
  intro g m hm
  show m ∈ (saddFn (natStr e.1) s.allFollowers).1
  have hm2 : m ∈ (if g = e.2 then (saddFn (natStr e.1) (s.followers e.2)).1
      else s.followers g) := hm
  by_cases hg : g = e.2
  · rw [if_pos hg, saddFn] at hm2
    by_cases hpre : natStr e.1 ∈ s.followers e.2
    · rw [if_pos hpre] at hm2
      exact saddFn_superset (h e.2 m hm2)
    · rw [if_neg hpre] at hm2
      rcases List.mem_cons.mp hm2 with rfl | hm3
      · exact saddFn_mem_self
      · exact saddFn_superset (h e.2 m hm3)
  · rw [if_neg hg] at hm2
    exact saddFn_superset (h g m hm2)

theorem loadGo_followInv :
    ∀ {lines : List String} {s : RedisState} {cnt : Nat} {s' : RedisState}
      {n : Nat}, FollowInv s → loadGo s cnt lines = .ok (s', n) → FollowInv s'
  | [], s, cnt, s', n, h, heq => by
    rw [loadGo] at heq
    cases heq
    exact h
  | line :: rest, s, cnt, s', n, h, heq => by
    rw [loadGo] at heq
    cases hpe : parseEdge line with
    | error msg => rw [hpe] at heq; cases heq
    | ok o =>
      cases o with
      | none =>
        rw [hpe] at heq
        exact loadGo_followInv h heq
      | some e =>
        rw [hpe] at heq
        exact loadGo_followInv (applyEdge_followInv h) heq

theorem loadGo_timelines :
    ∀ {lines : List String} {s : RedisState} {cnt : Nat} {s' : RedisState}
      {n : Nat}, loadGo s cnt lines = .ok (s', n) →
      s'.timelines = s.timelines
  | [], s, cnt, s', n, heq => by
    rw [loadGo] at heq
    cases heq
    rfl
  | line :: rest, s, cnt, s', n, heq => by
    rw [loadGo] at heq
    cases hpe : parseEdge line with
    | error msg => rw [hpe] at heq; cases heq
    | ok o =>
      cases o with
      | none =>
        rw [hpe] at heq
        exact loadGo_timelines heq
      | some e =>
        rw [hpe] at heq
        rw [loadGo_timelines heq, applyEdge_timelines]

theorem loadGo_error :
    ∀ {lines : List String} {s : RedisState} {cnt : Nat} {line : String}
      {msg : String}, line ∈ lines → parseEdge line = .error msg →
      ∃ msg', loadGo s cnt lines = .error msg'
  | [], _, _, _, _, hm, _ => absurd hm (List.not_mem_nil _)
  | l :: rest, s, cnt, line, msg, hm, hpe => by
    rw [loadGo]
    cases hl : parseEdge l with
    | error m2 => exact ⟨m2, rfl⟩
    | ok o =>
      have hmt : line ∈ rest := by
        rcases List.mem_cons.mp hm with rfl | h
        · rw [hpe] at hl
          cases hl
        · exact h
      cases o with
      | none => exact loadGo_error hmt hpe
      | some e => exact loadGo_error hmt hpe

theorem loadGo_skips_blank :
    ∀ (lines : List String) (s : RedisState) (cnt : Nat),
      loadGo s cnt lines =
        loadGo s cnt (lines.filter fun l => !(trimChars l.data).isEmpty)
  | [], _, _ => rfl
  | line :: rest, s, cnt => by
    by_cases hb : trimChars line.data = []
    · have hpe : parseEdge line = .ok none := by
        rw [parseEdge, if_pos hb]
      rw [List.filter_cons_of_neg (by simp [hb]), loadGo, hpe]
      exact loadGo_skips_blank rest s cnt
    · rw [List.filter_cons_of_pos (by simp [hb]), loadGo, loadGo]
      have hpe : parseEdge line =
          (match splitFirstComma (trimChars line.data) with
            | (_, none) => .error "not enough values to unpack"
            | (a, some b) =>
              match parseNatChars (trimChars a), parseNatChars (trimChars b) with
              | some x, some y => .ok (some (x, y))
              | _, _ => .error "invalid literal for int()") := by
        rw [parseEdge, if_neg hb]
      cases hm : parseEdge line with
      | error msg => rfl
      | ok o =>
        cases o with
        | none => exact loadGo_skips_blank rest s cnt
        | some e => exact loadGo_skips_blank rest (applyEdge s e).1 (cnt + (applyEdge s e).2)

/-! ### The timeline cap invariant -/

theorem fanStep_bound {k tid ts : Nat} {acc : RedisState} {mem : String}
    (h : ∀ u, (acc.timelines u).length ≤ k) :
    ∀ u, ((fanStep (some k) tid ts acc mem).timelines u).length ≤ k := by
  intro u
  rcases fanStep_timelines_cases (some k) tid ts acc mem u with he | ⟨_, he⟩
  · rw [he]; exact h u
  · rw [he]
    exact ztrim_length_le k _

theorem foldl_fanStep_bound {k tid ts : Nat} :
    ∀ {l : List String} {acc : RedisState},
      (∀ u, (acc.timelines u).length ≤ k) →
      ∀ u, ((l.foldl (fanStep (some k) tid ts) acc).timelines u).length ≤ k
  | [], _, h => h
  | m :: t, acc, h => by
    rw [List.foldl_cons]
    exact foldl_fanStep_bound (fanStep_bound h)

theorem post_tweet_bound {k : Nat} {s : RedisState} {u : Nat} {text : String}
    {ts : Nat} (h : ∀ v, (s.timelines v).length ≤ k) :
    ∀ v, ((post_tweet (some k) s u text ts).2.timelines v).length ≤ k := by
  rw [post_tweet_def]
  apply foldl_fanStep_bound
  intro v
  by_cases hv : v = u
  · simp only [if_pos hv]
    exact ztrim_length_le k _
  · simp only [if_neg hv]
    exact h v

theorem reach_timeline_bound {k : Nat} {s : RedisState}
    (h : Reach (some k) s) : ∀ u, (s.timelines u).length ≤ k := by
  induction h with
  | init =>
    intro u
    simp [initState]
  | post u text ts hr ih => exact post_tweet_bound ih
  | load lines hdr hr heq ih =>
    intro u
    have ht := loadGo_timelines heq
    rw [ht]
    exact ih u

/-! ### The GlobalFollowerSet invariant -/

theorem reach_followInv {K : Option Nat} {s : RedisState} (h : Reach K s) :
    FollowInv s := by
  induction h with
  | init =>
    intro g m hm
    simp [initState] at hm
  | post u text ts hr ih =>
    intro g m hm
    rw [post_tweet_followers] at hm
    rw [post_tweet_allFollowers]
    exact ih g m hm
  | load lines hdr hr heq ih => exact loadGo_followInv ih heq

/-! ### The identifier allocator -/

theorem postSeq_ids :
    ∀ (ops : List (Nat × String × Nat)) (K : Option Nat) (s : RedisState),
      postSeq K s ops =
        (List.range ops.length).map (fun i => s.nextTweetId + i + 1)
  | [], _, _ => rfl
  | a :: rest, K, s => by
    show (post_tweet K s a.1 a.2.1 a.2.2).1 ::
        postSeq K (post_tweet K s a.1 a.2.1 a.2.2).2 rest = _
    rw [postSeq_ids rest K _, post_tweet_nextTweetId, post_tweet_fst,
      List.length_cons, List.range_succ_eq_map, List.map_cons, List.map_map]
    refine congrArg₂ _ (by omega) ?_
    apply List.map_congr_left
    intro i _
    show s.nextTweetId + 1 + i + 1 = s.nextTweetId + (i + 1) + 1
    omega

/-! ### SQL MIN/MAX helpers -/

theorem foldl_min_mem : ∀ (t : List Nat) (a : Nat), t.foldl Nat.min a ∈ a :: t
  | [], a => List.mem_singleton.mpr rfl
  | b :: t, a => by
    rw [List.foldl_cons]
    rcases List.mem_cons.mp (foldl_min_mem t (Nat.min a b)) with h | h
    · rw [h]
      have hd : Nat.min a b = if a ≤ b then a else b := rfl
      have hm : Nat.min a b = a ∨ Nat.min a b = b := by
        rw [hd]; split
        · exact Or.inl rfl
        · exact Or.inr rfl
      rcases hm with hm | hm
      · rw [hm]; exact List.mem_cons_self _ _
      · rw [hm]; exact List.mem_cons_of_mem _ (List.mem_cons_self _ _)
    · exact List.mem_cons_of_mem _ (List.mem_cons_of_mem _ h)

theorem foldl_max_mem : ∀ (t : List Nat) (a : Nat), t.foldl Nat.max a ∈ a :: t
  | [], a => List.mem_singleton.mpr rfl
  | b :: t, a => by
    rw [List.foldl_cons]
    rcases List.mem_cons.mp (foldl_max_mem t (Nat.max a b)) with h | h
    · rw [h]
      have hd : Nat.max a b = if a ≤ b then b else a := rfl
      have hm : Nat.max a b = a ∨ Nat.max a b = b := by
        rw [hd]; split
        · exact Or.inr rfl
        · exact Or.inl rfl
      rcases hm with hm | hm
      · rw [hm]; exact List.mem_cons_self _ _
      · rw [hm]; exact List.mem_cons_of_mem _ (List.mem_cons_self _ _)
    · exact List.mem_cons_of_mem _ (List.mem_cons_of_mem _ h)

theorem sqlMin_mem {l : List Nat} {m : Nat} (h : sqlMin l = some m) : m ∈ l := by
  cases l with
  | nil => cases h
  | cons a t =>
    rw [sqlMin] at h
    cases h
    exact foldl_min_mem t a

theorem sqlMax_mem {l : List Nat} {m : Nat} (h : sqlMax l = some m) : m ∈ l := by
  cases l with
  | nil => cases h
  | cons a t =>
    rw [sqlMax] at h
    cases h
    exact foldl_max_mem t a

theorem sqlMin_of_ne_nil {l : List Nat} (h : l ≠ []) : ∃ m, sqlMin l = some m := by
  cases l with
  | nil => exact absurd rfl h
  | cons a t => exact ⟨t.foldl Nat.min a, rfl⟩

theorem sqlMax_of_ne_nil {l : List Nat} (h : l ≠ []) : ∃ m, sqlMax l = some m := by
  cases l with
  | nil => exact absurd rfl h
  | cons a t => exact ⟨t.foldl Nat.max a, rfl⟩

/-! ### Fan-out congruence and no-cap delivery -/

theorem fanStep_timelines_congr {K : Option Nat} {tid ts : Nat}
    {acc1 acc2 : RedisState} (h : acc1.timelines = acc2.timelines)
    (mem : String) :
    (fanStep K tid ts acc1 mem).timelines =
      (fanStep K tid ts acc2 mem).timelines := by
  rw [fanStep, fanStep]
  cases pyToNat? mem with
  | none => exact h
  | some fid => simp only [h]

theorem foldl_fanStep_timelines_congr {K : Option Nat} {tid ts : Nat} :
    ∀ (l : List String) {acc1 acc2 : RedisState},
      acc1.timelines = acc2.timelines →
      (l.foldl (fanStep K tid ts) acc1).timelines =
        (l.foldl (fanStep K tid ts) acc2).timelines
  | [], _, _, h => h
  | m :: t, acc1, acc2, h => by
    rw [List.foldl_cons, List.foldl_cons]
    exact foldl_fanStep_timelines_congr t (fanStep_timelines_congr h m)

theorem foldl_fanStep_skip_junk {K : Option Nat} {tid ts : Nat} :
    ∀ (l : List String) (acc : RedisState),
      ((l.filter fun m => (pyToNat? m).isSome).foldl
        (fanStep K tid ts) acc).timelines =
        (l.foldl (fanStep K tid ts) acc).timelines
  | [], _ => rfl
  | m :: t, acc => by
    cases hp : pyToNat? m with
    | none =>
      rw [List.filter_cons_of_neg (by simp [hp]), List.foldl_cons]
      have hid : fanStep K tid ts acc m = acc := by
        rw [fanStep, hp]
      rw [hid]
      exact foldl_fanStep_skip_junk t acc
    | some fid =>
      rw [List.filter_cons_of_pos (by simp [hp]), List.foldl_cons,
        List.foldl_cons]
      exact foldl_fanStep_skip_junk t (fanStep K tid ts acc m)

theorem fanStep_mem_nocap {tid ts g : Nat} {acc : RedisState} {mem : String}
    (h : (tid, ts) ∈ acc.timelines g) :
    (tid, ts) ∈ (fanStep none tid ts acc mem).timelines g := by
  rcases fanStep_timelines_cases none tid ts acc mem g with he | ⟨_, he⟩
  · rw [he]; exact h
  · rw [he]
    exact mem_zadd.mpr (Or.inr rfl)

theorem foldl_mem_nocap {tid ts g : Nat} :
    ∀ {l : List String} {acc : RedisState},
      (tid, ts) ∈ acc.timelines g →
      (tid, ts) ∈ ((l.foldl (fanStep none tid ts) acc).timelines g)
  | [], _, h => h
  | m :: t, acc, h => by
    rw [List.foldl_cons]
    exact foldl_mem_nocap (fanStep_mem_nocap h)

theorem foldl_delivers_nocap {tid ts g : Nat} {mem : String}
    (hp : pyToNat? mem = some g) :
    ∀ {l : List String} {acc : RedisState}, mem ∈ l →
      (tid, ts) ∈ ((l.foldl (fanStep none tid ts) acc).timelines g)
  | [], _, hm => absurd hm (List.not_mem_nil mem)
  | m :: t, acc, hm => by
    rw [List.foldl_cons]
    by_cases hmm : pyToNat? m = some g
    · apply foldl_mem_nocap
      have he : (fanStep none tid ts acc m).timelines g =
          trimOpt none (zadd (acc.timelines g) tid ts) := by
        rw [fanStep, hmm]
        simp
      rw [he]
      exact mem_zadd.mpr (Or.inr rfl)
    · have hmt : mem ∈ t := by
        rcases List.mem_cons.mp hm with he | he
        · exact absurd (he ▸ hp) hmm
        · exact he
      exact foldl_delivers_nocap hp hmt

/-! ### The claims -/

/-- C2: when a timeline cap `k` (`timeline_max_size`) is configured, no
user's timeline ever holds more than `k` entries in any state reachable
from the empty store by posts and loads: the trim is part of every write
batch that could grow a timeline, so the bound holds at every observation
point between operations. -/
theorem claim_C2 :
    ∀ (k : Nat) (s : RedisState), Reach (some k) s →
      ∀ u, (s.timelines u).length ≤ k :=
  fun _ _ h => reach_timeline_bound h

/-- C2 witness: one capped post into the empty store keeps the author's
timeline within the cap. -/
theorem claim_C2_witness :
    Reach (some 1) (post_tweet (some 1) initState 1 "a" 5).2 ∧
    ((post_tweet (some 1) initState 1 "a" 5).2.timelines 1).length ≤ 1 :=
  ⟨Reach.post 1 "a" 5 Reach.init,
    claim_C2 1 _ (Reach.post 1 "a" 5 Reach.init) 1⟩

/-- C3 (amended): after `post(author, text)` at a timestamp strictly above
every score already in the author's timeline, and with a cap that keeps at
least one entry (or no cap), the first element of the author's home
timeline is the freshly posted tweet, carrying the returned `post_id` and
the posted text.  (The timestamp condition is forced by the tie-break
counterexample: with equal millisecond scores Redis orders members by
their decimal strings, so the newest post need not come first.) -/
theorem claim_C3 :
    ∀ (K : Option Nat) (s : RedisState) (u : Nat) (text : String) (ts : Nat),
      KOK K → (∀ e ∈ s.timelines u, e.2 < ts) →
      (get_home_timeline (post_tweet K s u text ts).2 u).head? =
        some ⟨(post_tweet K s u text ts).1, u, natStr ts, text⟩ := by
  intro K s u text ts hK hfresh
  rw [post_tweet_fst]
  exact post_author_first hK hfresh

/-- C3 witness: a first post into the empty store at timestamp 5. -/
theorem claim_C3_witness :
    KOK (none : Option Nat) ∧ (∀ e ∈ initState.timelines 1, e.2 < 5) ∧
    (get_home_timeline (post_tweet none initState 1 "x" 5).2 1).head? =
      some ⟨(post_tweet none initState 1 "x" 5).1, 1, natStr 5, "x"⟩ :=
  ⟨(fun _ h => nomatch h), by decide,
    claim_C3 none initState 1 "x" 5 (fun _ h => nomatch h) (by decide)⟩

/-- C3 counterexample: the claim as stated fails on ties.  After nine
posts by author 1 at millisecond timestamp 100, the tenth post (id 10,
same timestamp) is not the first element of `home_timeline(1)`: with all
scores equal, `ZREVRANGE` orders the members by their decimal strings and
`"9" > "10"`, so tweet 9 comes first. -/
theorem claim_C3_counterexample :
    (get_home_timeline tieScnPost.2 1).head?.map Tweet.tweet_id = some 9 ∧
    tieScnPost.1 = 10 ∧
    (get_home_timeline tieScnPost.2 1).head?.map Tweet.tweet_id ≠
      some tieScnPost.1 := by
  decide

/-- C7: in every state reachable from the empty store, every member of
any per-user follower set is also a member of the global `all_followers`
set (the loader queues the `all_followers` insert in the same batch as the
edge insert, and posting never touches either). -/
theorem claim_C7 :
    ∀ (K : Option Nat) (s : RedisState), Reach K s → FollowInv s :=
  fun _ _ h => reach_followInv h

/-- C7 witness: after loading the scenario edges, follower "1" of user 2
is in the global follower set. -/
theorem claim_C7_witness :
    Reach (none : Option Nat) scnLoaded ∧ "1" ∈ scnLoaded.followers 2 ∧
    "1" ∈ scnLoaded.allFollowers :=
  ⟨Reach.load ["1,2", "1,2", "3,2"] false Reach.init rfl, by decide,
    claim_C7 none scnLoaded
      (Reach.load ["1,2", "1,2", "3,2"] false Reach.init rfl) 2 "1"
      (by decide)⟩

/-- C8: the tweet-id allocator (`INCR next_tweet_id` inside `post_tweet`)
is strictly monotone across any sequence of posts from any starting
state: the returned ids are consecutive successors of the stored counter,
each id is strictly greater than every previously returned id, all ids
are pairwise distinct, and the sentinel 0 is never returned. -/
theorem claim_C8 :
    ∀ (K : Option Nat) (s : RedisState) (ops : List (Nat × String × Nat)),
      postSeq K s ops =
        (List.range ops.length).map (fun i => s.nextTweetId + i + 1) ∧
      (postSeq K s ops).Pairwise (· < ·) ∧
      (postSeq K s ops).Pairwise (· ≠ ·) ∧
      0 ∉ postSeq K s ops := by
  intro K s ops
  have h := postSeq_ids ops K s
  refine ⟨h, ?_, ?_, ?_⟩
  · rw [h, List.pairwise_map]
    exact (List.pairwise_lt_range _).imp fun hab => by omega
  · rw [h, List.pairwise_map]
    exact (List.pairwise_lt_range _).imp fun hab => by omega
  · rw [h]
    simp only [List.mem_map, List.mem_range]
    rintro ⟨i, -, hi⟩
    omega

/-- C1 (amended): for every member of the author's follower set that
parses to `fid`, if the post's timestamp is strictly above every score in
`fid`'s timeline and the configured cap keeps at least one entry, then
after the post `home_timeline(fid)` contains the new post — in fact as
its first entry.  In the concrete scenario (edges (1,2),(1,2),(3,2)
loaded, then `post(2, "hello")`) the home timelines of 1, 3 and 2 all
have a post with text "hello" as their first entry.  (The strict
timestamp condition is forced by the tie counterexample: a post whose
score ties existing entries can be evicted by the trim even though its
score is among the top-K scores.) -/
theorem claim_C1 :
    (∀ (K : Option Nat) (s : RedisState) (u fid : Nat) (text : String)
        (ts : Nat) (mem : String),
      KOK K → mem ∈ s.followers u → pyToNat? mem = some fid →
      (∀ e ∈ s.timelines fid, e.2 < ts) →
      (get_home_timeline (post_tweet K s u text ts).2 fid).head? =
        some ⟨s.nextTweetId + 1, u, natStr ts, text⟩) ∧
    (get_home_timeline scnPosted 1).head?.map Tweet.tweet_text = some "hello" ∧
    (get_home_timeline scnPosted 3).head?.map Tweet.tweet_text = some "hello" ∧
    (get_home_timeline scnPosted 2).head?.map Tweet.tweet_text = some "hello" := by
  refine ⟨?_, by decide, by decide, by decide⟩
  intro K s u fid text ts mem hK hmem hp hfresh
  exact post_follower_first hK hmem hp hfresh

/-- C1 witness: the scenario load followed by `post(2, "hello")` at
timestamp 100 delivers the post to follower 1's home timeline as its
first entry. -/
theorem claim_C1_witness :
    KOK (none : Option Nat) ∧ "1" ∈ scnLoaded.followers 2 ∧
    pyToNat? "1" = some 1 ∧ (∀ e ∈ scnLoaded.timelines 1, e.2 < 100) ∧
    (get_home_timeline (post_tweet none scnLoaded 2 "hello" 100).2 1).head? =
      some ⟨scnLoaded.nextTweetId + 1, 2, natStr 100, "hello"⟩ :=
  ⟨(fun _ h => nomatch h), by decide, by decide, by decide,
    claim_C1.1 none scnLoaded 2 1 "hello" 100 "1" (fun _ h => nomatch h)
      (by decide) (by decide) (by decide)⟩

/-- C1 counterexample: the claim as stated fails.  With cap K = 1,
follower 1 of author 2, and nine prior posts at timestamp 100, the tenth
post (id 10, same timestamp 100) satisfies the claim's premise — its
score 100 is among the top-1 scores of the grown timeline — yet
`home_timeline(1)` does not contain it: the trim keeps tweet 9, whose
decimal member string "9" outranks "10" at equal score. -/
theorem claim_C1_counterexample :
    "1" ∈ capScn.followers 2 ∧
    pyToNat? "1" = some 1 ∧
    (capScn.timelines 1).length = 1 ∧
    ((zrevEntries (zadd (capScn.timelines 1) capScnPost.1 100)).take 1).map
      Prod.snd = [100] ∧
    capScnPost.1 ∉ (get_home_timeline capScnPost.2 1).map Tweet.tweet_id := by
  decide

/-- C4 (amended): `home_timeline(user)` returns at most 10 entries, the
ten read entries are ordered by non-increasing score (most recent first
up to equal-score ties), and a missing or empty timeline yields the empty
sequence rather than an error.  (Strictly descending fails when two posts
share a millisecond timestamp — see the counterexample.) -/
theorem claim_C4 :
    ∀ (s : RedisState) (u : Nat),
      (get_home_timeline s u).length ≤ 10 ∧
      ((zrevEntries (s.timelines u)).take 10).Pairwise
        (fun a b => b.2 ≤ a.2) ∧
      (s.timelines u = [] → get_home_timeline s u = []) := by
  intro s u
  refine ⟨?_, ?_, ?_⟩
  · calc (get_home_timeline s u).length
        ≤ (((zrevEntries (s.timelines u)).take 10).map Prod.fst).length :=
          List.length_filterMap_le _ _
      _ ≤ 10 := by
          rw [List.length_map, List.length_take]
          omega
  · apply List.Pairwise.sublist (List.take_sublist _ _)
    apply (zrev_pairwise _).imp
    intro a b hab
    rcases hab with h | ⟨h, -⟩
    · omega
    · omega
  · intro h
    show List.filterMap _ (((zrevEntries (s.timelines u)).take 10).map Prod.fst) = []
    rw [h]
    rfl

/-- C4 witness: the general bound evaluated at the two-post tie state. -/
theorem claim_C4_witness :
    (get_home_timeline twoTieState 1).length ≤ 10 ∧
    ((zrevEntries (twoTieState.timelines 1)).take 10).Pairwise
      (fun a b => b.2 ≤ a.2) ∧
    (twoTieState.timelines 1 = [] → get_home_timeline twoTieState 1 = []) :=
  claim_C4 twoTieState 1

/-- C4 counterexample: "strictly descending by score" fails.  Two posts
by author 1 in the same millisecond (timestamp 100) give a two-entry home
timeline whose scores are equal, so the read order is not strictly
descending. -/
theorem claim_C4_counterexample :
    (get_home_timeline twoTieState 1).length = 2 ∧
    ¬ ((zrevEntries (twoTieState.timelines 1)).take 10).Pairwise
        (fun a b => b.2 < a.2) := by
  decide

/-- C5: the loader returns exactly the number of newly inserted distinct
follow edges: for any input lines that parse to the edge list `es`, the
returned count is the number of distinct edges of `es` not already
present (so a duplicated pair contributes exactly 1, re-submitted
duplicates contribute 0), and on the concrete input
(1,2),(1,2),(3,2) with no header the count is 2. -/
theorem claim_C5 :
    (∀ (s : RedisState) (lines : List String) (es : List (Nat × Nat)),
      List.Forall₂ (fun line e => parseEdge line = .ok (some e)) lines es →
      ∃ s', load_follows_csv s lines false =
        .ok (s', (es.toFinset.filter (fun e => ¬ hasEdge s e)).card)) ∧
    (load_follows_csv initState ["1,2", "1,2", "3,2"] false).map Prod.snd =
      .ok 2 := by
  constructor
  · intro s lines es hf
    obtain ⟨s', hs'⟩ := loadGo_count hf s 0
    refine ⟨s', ?_⟩
    show loadGo s 0 lines = _
    rw [hs']
    rw [Nat.zero_add]
  · rfl

/-- C5 witness: loading two numeral lines that parse to two distinct
absent edges. -/
theorem claim_C5_witness :
    List.Forall₂ (fun line e => parseEdge line = .ok (some e))
      ["1,2", "3,2"] [(1, 2), (3, 2)] ∧
    ∃ s', load_follows_csv initState ["1,2", "3,2"] false =
      .ok (s', (([(1, 2), (3, 2)] : List (Nat × Nat)).toFinset.filter
        (fun e => ¬ hasEdge initState e)).card) :=
  ⟨.cons rfl (.cons rfl .nil),
    claim_C5.1 initState ["1,2", "3,2"] [(1, 2), (3, 2)]
      (.cons rfl (.cons rfl .nil))⟩

/-- C6: a malformed data record (no comma, or a field that is not a
numeral) makes the whole load fail with the uncaught parse error, rather
than being silently skipped; blank records are the only lines skipped —
the loading loop is unchanged by deleting the blank lines. -/
theorem claim_C6 :
    (∀ (s : RedisState) (lines : List String) (hdr : Bool) (line msg : String),
      line ∈ (if hdr then lines.drop 1 else lines) →
      parseEdge line = .error msg →
      ∃ msg', load_follows_csv s lines hdr = .error msg') ∧
    (∀ (s : RedisState) (cnt : Nat) (lines : List String),
      loadGo s cnt lines =
        loadGo s cnt (lines.filter fun l => !(trimChars l.data).isEmpty)) := by
  constructor
  · intro s lines hdr line msg hm hpe
    exact loadGo_error hm hpe
  · intro s cnt lines
    exact loadGo_skips_blank lines s cnt

/-- C6 witness: the malformed record "x,2" aborts a two-line load. -/
theorem claim_C6_witness :
    "x,2" ∈ (if false then (["1,2", "x,2"] : List String).drop 1
      else ["1,2", "x,2"]) ∧
    parseEdge "x,2" = .error "invalid literal for int()" ∧
    ∃ msg', load_follows_csv initState ["1,2", "x,2"] false = .error msg' :=
  ⟨by decide, rfl,
    claim_C6.1 initState ["1,2", "x,2"] false "x,2" "invalid literal for int()"
      (by decide) rfl⟩

/-- C9: the samplers return `None` exactly when no followers are known.
Redis variant: on an empty `all_followers` set the sampler returns
`None` without raising, and on a non-empty set of canonical (numeral)
members it returns some follower id that is in the set.  MySQL
range-probe variant: an empty `FOLLOWS` table yields `None`; when the
table is non-empty and the random draw `r` does not exceed the maximum
follower id (`randint(min, max)` guarantees this), the successor query
finds a row, so some stored follower id is returned. -/
theorem claim_C9 :
    (∀ (s : RedisState) (k : Nat), s.allFollowers = [] →
      get_random_follower_id s k = .ok none) ∧
    (∀ (s : RedisState) (k : Nat),
      (∀ m ∈ s.allFollowers, ∃ n, m = natStr n) → s.allFollowers ≠ [] →
      ∃ n, get_random_follower_id s k = .ok (some n) ∧
        natStr n ∈ s.allFollowers) ∧
    (∀ r : Nat, mysql_get_random_follower_id [] r = none) ∧
    (∀ (rows : List (Nat × Nat)) (r M : Nat),
      sqlMax (rows.map Prod.fst) = some M → r ≤ M →
      ∃ i, mysql_get_random_follower_id rows r = some i ∧
        i ∈ rows.map Prod.fst ∧ r ≤ i) := by
  refine ⟨?_, ?_, ?_, ?_⟩
  · intro s k h
    rw [get_random_follower_id, srandmember]
    rw [dif_pos (by rw [h]; rfl)]
  · intro s k hc hne
    have hlen : s.allFollowers.length ≠ 0 :=
      fun h => hne (List.length_eq_zero.mp h)
    have hs : srandmember s.allFollowers k =
        some (s.allFollowers.get
          ⟨k % s.allFollowers.length,
            Nat.mod_lt _ (Nat.pos_of_ne_zero hlen)⟩) := by
      rw [srandmember, dif_neg hlen]
    have hv : s.allFollowers.get
        ⟨k % s.allFollowers.length,
          Nat.mod_lt _ (Nat.pos_of_ne_zero hlen)⟩ ∈ s.allFollowers :=
      List.get_mem _ _ _
    obtain ⟨n, hn⟩ := hc _ hv
    refine ⟨n, ?_, by rw [← hn]; exact hv⟩
    rw [get_random_follower_id, hs, hn]
    show (match pyToNat? (natStr n) with
      | some m => Except.ok (some m)
      | none => Except.error "invalid literal for int()") =
      Except.ok (some n)
    rw [pyToNat?_natStr]
  · intro r
    rfl
  · intro rows r M hM hrM
    have hMne : rows.map Prod.fst ≠ [] := List.ne_nil_of_mem (sqlMax_mem hM)
    obtain ⟨m0, hm0⟩ := sqlMin_of_ne_nil hMne
    have hMf : M ∈ (rows.map Prod.fst).filter (fun i => r ≤ i) := by
      rw [List.mem_filter]
      exact ⟨sqlMax_mem hM, by simpa using hrM⟩
    obtain ⟨i, hi⟩ := sqlMin_of_ne_nil (List.ne_nil_of_mem hMf)
    have him := sqlMin_mem hi
    rw [List.mem_filter] at him
    refine ⟨i, ?_, him.1, by simpa using him.2⟩
    show (match sqlMin (rows.map Prod.fst), sqlMax (rows.map Prod.fst) with
      | some _, some _ => sqlMin ((rows.map Prod.fst).filter fun i => r ≤ i)
      | _, _ => none) = some i
    rw [hm0, hM]
    exact hi

/-- C9 witness: the loaded scenario state has the canonical non-empty
follower set {"3", "1"}, and the Redis sampler returns a member id;
the MySQL variant on the one-row table [(1,2)] with draw 1 returns 1. -/
theorem claim_C9_witness :
    (∀ m ∈ scnLoaded.allFollowers, ∃ n, m = natStr n) ∧
    scnLoaded.allFollowers ≠ [] ∧
    (∃ n, get_random_follower_id scnLoaded 0 = .ok (some n) ∧
      natStr n ∈ scnLoaded.allFollowers) ∧
    sqlMax ([((1 : Nat), (2 : Nat))].map Prod.fst) = some 1 ∧ 1 ≤ 1 ∧
    (∃ i, mysql_get_random_follower_id [(1, 2)] 1 = some i ∧
      i ∈ [((1 : Nat), (2 : Nat))].map Prod.fst ∧ 1 ≤ i) := by
  have hc : ∀ m ∈ scnLoaded.allFollowers, ∃ n, m = natStr n := by
    intro m hm
    have hm2 : m = "3" ∨ m = "1" := by
      have he : scnLoaded.allFollowers = ["3", "1"] := rfl
      rw [he] at hm
      simpa using hm
    rcases hm2 with rfl | rfl
    · exact ⟨3, rfl⟩
    · exact ⟨1, rfl⟩
  refine ⟨hc, by decide, claim_C9.2.1 scnLoaded 0 hc (by decide), rfl,
    le_refl 1, claim_C9.2.2.2 [(1, 2)] 1 1 rfl (le_refl 1)⟩

/-- C10: a follower-set member that `int(...)` cannot parse is silently
skipped by the fan-out: posting against a state whose follower set keeps
only the parseable members produces exactly the same timelines (so
`post_tweet` never fails on a junk member), `post_tweet` still returns
the allocated tweet id, and the post is delivered to the timeline of
every parseable member — always when no cap is configured, and under a
cap `k ≥ 1` whenever the post's timestamp is strictly above the scores
already in that timeline. -/
theorem claim_C10 :
    (∀ (K : Option Nat) (s : RedisState) (u : Nat) (text : String) (ts : Nat),
      (post_tweet K s u text ts).1 = s.nextTweetId + 1) ∧
    (∀ (K : Option Nat) (s s' : RedisState) (u : Nat) (text : String)
        (ts : Nat),
      s'.followers u = (s.followers u).filter (fun m => (pyToNat? m).isSome) →
      s'.timelines = s.timelines → s'.nextTweetId = s.nextTweetId →
      (post_tweet K s u text ts).2.timelines =
        (post_tweet K s' u text ts).2.timelines) ∧
    (∀ (s : RedisState) (u fid : Nat) (text : String) (ts : Nat)
        (mem : String),
      mem ∈ s.followers u → pyToNat? mem = some fid →
      (s.nextTweetId + 1, ts) ∈ (post_tweet none s u text ts).2.timelines fid) ∧
    (∀ (k : Nat) (s : RedisState) (u fid : Nat) (text : String) (ts : Nat)
        (mem : String),
      1 ≤ k → mem ∈ s.followers u → pyToNat? mem = some fid →
      (∀ e ∈ s.timelines fid, e.2 < ts) →
      (s.nextTweetId + 1, ts) ∈
        (post_tweet (some k) s u text ts).2.timelines fid) := by
  refine ⟨fun K s u text ts => rfl, ?_, ?_, ?_⟩
  · intro K s s' u text ts hf ht hn
    rw [post_tweet_def, post_tweet_def, hf, ht, hn]
    rw [foldl_fanStep_skip_junk]
    refine foldl_fanStep_timelines_congr _ ?_
    rfl
  · intro s u fid text ts mem hmem hp
    rw [post_tweet_def]
    exact foldl_delivers_nocap hp hmem
  · intro k s u fid text ts mem hk hmem hp hfresh
    have hK : KOK (some k) := fun j hj => by cases hj; exact hk
    have htop : topEntry (s.nextTweetId + 1) ts
        ((post_tweet (some k) s u text ts).2.timelines fid) := by
      rw [post_tweet_def]
      apply foldl_delivers hK hp _ hmem
      by_cases hfu : fid = u
      · subst hfu
        simp only [if_pos rfl, if_true]
        exact freshQ_trimOpt (freshQ_zadd fun e he _ => hfresh e he)
      · simp only [if_neg hfu]
        exact fun e he _ => hfresh e he
    exact htop.1

/-- C10 witness: the set `followers:1 = {"abc", "2"}` holds one junk
member; posting still returns id 1, dropping the junk member leaves all
timelines unchanged, and the post lands in follower 2's timeline. -/
theorem claim_C10_witness :
    "2" ∈ junkState.followers 1 ∧ pyToNat? "2" = some 2 ∧
    pyToNat? "abc" = none ∧
    junkStateF.followers 1 =
      (junkState.followers 1).filter (fun m => (pyToNat? m).isSome) ∧
    (post_tweet none junkState 1 "t" 50).1 = junkState.nextTweetId + 1 ∧
    (post_tweet none junkState 1 "t" 50).2.timelines =
      (post_tweet none junkStateF 1 "t" 50).2.timelines ∧
    (junkState.nextTweetId + 1, 50) ∈
      (post_tweet none junkState 1 "t" 50).2.timelines 2 :=
  ⟨by decide, by decide, by decide, by decide,
    claim_C10.1 none junkState 1 "t" 50,
    claim_C10.2.1 none junkState junkStateF 1 "t" 50 (by decide) rfl rfl,
    claim_C10.2.2.1 junkState 1 2 "t" 50 "2" (by decide) (by decide)⟩

/-- C8 witness: two posts into the empty store allocate ids 1 and 2, and
0 is not among them. -/
theorem claim_C8_witness :
    postSeq none initState [(1, "a", 5), (1, "b", 6)] =
      (List.range 2).map (fun i => initState.nextTweetId + i + 1) ∧
    0 ∉ postSeq none initState [(1, "a", 5), (1, "b", 6)] :=
  ⟨(claim_C8 none initState [(1, "a", 5), (1, "b", 6)]).1,
    (claim_C8 none initState [(1, "a", 5), (1, "b", 6)]).2.2.2⟩
